import Mathlib

/-!
Verification of the portfolio analytics core of the
PortfolioOptimizationDashboard repository.

The TypeScript source is embedded shallowly: JavaScript numbers are
modelled by the rationals (`ℚ`), so that every definition is executable
and exact.  External library calls that the source makes with fixed
arguments (`Math.sqrt`, `math.quantile`, `math.exp`, and the `quadprog`
solver) are modelled by explicit Lean functions or by a solver parameter,
as documented at each definition.  No claim below depends on the numeric
values those external calls return, only on how the repository's own code
uses their results.
-/

namespace PortfolioDash

/-- Dot product of two rational vectors, truncating to the shorter length,
as `math.dot` does for equal-length arrays. -/
def dot (a b : List ℚ) : ℚ := (List.zipWith (fun x y => x * y) a b).sum

/-- Matrix-vector product: one dot product per matrix row. -/
def matVec (m : List (List ℚ)) (v : List ℚ) : List ℚ :=
  m.map (fun row => dot row v)

/-- Maximum of a list of rationals; models `Math.max(...xs)` for a
nonempty `xs` (the empty case, which JavaScript maps to `-Infinity`,
never arises in the embedded code paths and is given the value 0). -/
def listMax (l : List ℚ) : ℚ :=
  match l with
  | [] => 0
  | x :: xs => xs.foldl max x

-- ---------------------------------------------------------------------------
-- Optimizer.ts : meanVarianceOptimization
-- ---------------------------------------------------------------------------

/-- Identity columns for the `w ≥ 0` constraints, from `Optimizer.ts`
lines 38-42: each column is `new Array(n).fill(0)` with a 1 written at
position `i`. -/
def eyeCols (n : ℕ) : List (List ℚ) :=
  (List.range n).map (fun i => (List.replicate n (0 : ℚ)).set i 1)

/-- Constraint columns `[ones, mu, ...eyeCols]` from `Optimizer.ts`
line 45.  The source stores their transpose as `Amat`; `quadprog`
interprets each column `c` with bound `b` as `c · x ⋈ b`. -/
def qpColumns (mu : List ℚ) : List (List ℚ) :=
  [List.replicate mu.length (1 : ℚ), mu] ++ eyeCols mu.length

/-- Constraint bounds `[1, targetReturn, ...zeros]` from `Optimizer.ts`
line 48, aligned with `qpColumns`. -/
def qpBvec (mu : List ℚ) (targetReturn : ℚ) : List ℚ :=
  [1, targetReturn] ++ List.replicate mu.length (0 : ℚ)

/-- Number of leading constraints treated as equalities, from
`Optimizer.ts` line 51: `const meq = 1`, so only `sum(w) = 1` is an
equality and `mu·w ≥ targetReturn` stays an inequality. -/
def meq : ℕ := 1

/-- Column/bound pairs in the order the source passes them to the solver. -/
def qpConstraints (mu : List ℚ) (targetReturn : ℚ) : List (List ℚ × ℚ) :=
  (qpColumns mu).zip (qpBvec mu targetReturn)

/-- Feasibility for the constraint system `meanVarianceOptimization`
hands to `quadprog.solveQP`: the first `meq` constraints hold with
equality, the remaining ones as `≥`. -/
def qpFeasible (mu : List ℚ) (targetReturn : ℚ) (w : List ℚ) : Prop :=
  (∀ p ∈ (qpConstraints mu targetReturn).take meq, dot p.1 w = p.2) ∧
  (∀ p ∈ (qpConstraints mu targetReturn).drop meq, p.2 ≤ dot p.1 w)

instance (mu : List ℚ) (t : ℚ) (w : List ℚ) : Decidable (qpFeasible mu t w) := by
  unfold qpFeasible
  exact inferInstance

/-- Quadratic coefficient matrix `Dmat = 2 * Σ` from `Optimizer.ts`
line 24. -/
def Dmat (sigma : List (List ℚ)) : List (List ℚ) :=
  sigma.map (fun row => row.map (fun v => 2 * v))

/-- The objective `quadprog` minimizes, `(1/2)·xᵀ D x - dᵀ x`, with the
source's `Dmat = 2Σ` and `dvec = 0`: it equals the portfolio variance
`wᵀ Σ w`. -/
def qpObjective (sigma : List (List ℚ)) (w : List ℚ) : ℚ :=
  dot (matVec (Dmat sigma) w) w / 2

/-- Result record of `quadprog.solveQP`: a solution vector plus a
diagnostic message (empty when the solve succeeded, a text such as
"constraints are inconsistent, no solution!" when it did not). -/
structure QPResult where
  solution : List ℚ
  message : String
deriving DecidableEq

/-- Embedding of `meanVarianceOptimization` (`Optimizer.ts` lines 16-58).
The external `quadprog` solver is a parameter receiving exactly the data
the source builds: `Dmat`, `dvec`, `Amat` (the transposed column list),
`bvec` and `meq`.  The source returns `res.solution` unconditionally -
there is no error path and `res.message` is never inspected. -/
def meanVarianceOptimization
    (solveQP : List (List ℚ) → List ℚ → List (List ℚ) → List ℚ → ℕ → QPResult)
    (mu : List ℚ) (sigma : List (List ℚ)) (targetReturn : ℚ) : List ℚ :=
  let n := mu.length
  let dvec := List.replicate n (0 : ℚ)
  let Amat := (qpColumns mu).transpose
  let res := solveQP (Dmat sigma) dvec Amat (qpBvec mu targetReturn) meq
  res.solution

/-- A solver outcome on an infeasible system: `quadprog` reports the
inconsistency through `message` while `solution` holds garbage values. -/
def infeasibleReport : QPResult :=
  ⟨[0, 0], "constraints are inconsistent, no solution!"⟩

-- ---------------------------------------------------------------------------
-- featureEngineering.ts : portfolio metrics and marginal utilities
-- ---------------------------------------------------------------------------

/-- Risk-free rate constant from `featureEngineering.ts` line 6. -/
def RISK_FREE : ℚ := 43 / 1000

/-- CVaR confidence level from `featureEngineering.ts` line 7. -/
def CVAR_ALPHA : ℚ := 95 / 100

/-- Models the fixed value `math.quantile(1 - CVAR_ALPHA, 'normal')`
(the 5% standard normal quantile) that `cvarNorm` computes; a rational
approximation of Φ⁻¹(0.05) ≈ -1.644854. -/
def zQuantile : ℚ := -(1644854 / 1000000)

/-- Models the fixed value `math.exp(-0.5*z*z) / Math.sqrt(2*Math.PI)`
(the standard normal density at `zQuantile`) that `cvarNorm` computes; a
rational approximation of φ(-1.644854) ≈ 0.103136. -/
def pdfAtZ : ℚ := 103136 / 1000000

/-- Models `Math.sqrt` on the rationals.  It is exact at 0 and at ratios
of perfect squares; no claim below depends on its values beyond
`sqrtQ 0 = 0`, which matches `Math.sqrt(0) = 0` exactly. -/
def sqrtQ (q : ℚ) : ℚ :=
  if q ≤ 0 then 0 else (Nat.sqrt q.num.toNat : ℚ) / (Nat.sqrt q.den : ℚ)

/-- Annualised portfolio variance `wᵀ Σ w` from `featureEngineering.ts`
lines 15-19: the source computes `(wᵀ × cov) × w`; the row vector times
matrix step is the matrix-vector product with the transposed matrix. -/
def portfolioVariance (w : List ℚ) (cov : List (List ℚ)) : ℚ :=
  dot (matVec cov.transpose w) w

/-- Portfolio expected return `μ · w` from `featureEngineering.ts`
lines 21-23. -/
def portfolioReturn (w mu : List ℚ) : ℚ := dot w mu

/-- Sharpe ratio from `featureEngineering.ts` lines 25-29.  The source
divides by `Math.sqrt(variance)` with no degeneracy check; rational
division by zero is total in Lean (yielding 0) where JavaScript yields
`±Infinity`/`NaN`, and no claim below depends on that value. -/
def sharpe (w mu : List ℚ) (cov : List (List ℚ)) : ℚ :=
  let mean := portfolioReturn w mu
  let vol := sqrtQ (portfolioVariance w cov)
  (mean - RISK_FREE) / vol

/-- Normal-approximation CVaR from `featureEngineering.ts` lines 35-42:
`-(mean - std * k)` with `k = φ(z)/(1-α)` built from the fixed quantile
and density constants modelled above. -/
def cvarNorm (w mu : List ℚ) (cov : List (List ℚ)) : ℚ :=
  let mean := portfolioReturn w mu
  let std := sqrtQ (portfolioVariance w cov)
  let k := pdfAtZ / (1 - CVAR_ALPHA)
  Neg.neg (mean - std * k)

/-- Epsilon weight shift from `featureEngineering.ts` line 71. -/
def eps : ℚ := 1 / 100

/-- Perturbed weight vector built per candidate in
`computeMarginalUtilities` (`featureEngineering.ts` lines 77-81): the
donor is the first index holding the maximum weight, its weight becomes
`Math.max(0, w - eps)`, then `eps` is added at the candidate index. -/
def perturb (wStar : List ℚ) (idx : ℕ) : List ℚ :=
  let donor := wStar.findIdx (fun x => x == listMax wStar)
  let w1 := wStar.set donor (max 0 (wStar.getD donor 0 - eps))
  w1.set idx (w1.getD idx 0 + eps)

/-- Per-candidate marginal metrics record from `featureEngineering.ts`
lines 47-51. -/
structure MarginalMetrics where
  ticker : String
  deltaSharpe : ℚ
  deltaCvar : ℚ
deriving DecidableEq

/-- The `tickers.forEach((ticker, idx) => ...)` loop body of
`computeMarginalUtilities` (`featureEngineering.ts` lines 74-91), with
the running index made explicit: held indices are skipped, every other
index contributes one metrics entry built from the perturbed weights. -/
def marginalLoop (wStar mu : List ℚ) (cov : List (List ℚ))
    (heldIdx : List ℕ) (baseSharpe baseCvar : ℚ) :
    ℕ → List String → List MarginalMetrics := fun idx ts =>
  match ts with
  | [] => []
  | ticker :: rest =>
    let tail := marginalLoop wStar mu cov heldIdx baseSharpe baseCvar (idx + 1) rest
    if idx ∈ heldIdx then tail
    else
      let wPert := perturb wStar idx
      { ticker := ticker
        deltaSharpe := sharpe wPert mu cov - baseSharpe
        deltaCvar := baseCvar - cvarNorm wPert mu cov } :: tail

/-- Embedding of `computeMarginalUtilities` (`featureEngineering.ts`
lines 61-94).  The `Set<number>` of held indices is modelled as a list
with membership. -/
def computeMarginalUtilities (wStar mu : List ℚ) (cov : List (List ℚ))
    (tickers : List String) (heldIdx : List ℕ) : List MarginalMetrics :=
  let baseSharpe := sharpe wStar mu cov
  let baseCvar := cvarNorm wStar mu cov
  marginalLoop wStar mu cov heldIdx baseSharpe baseCvar 0 tickers

-- ---------------------------------------------------------------------------
-- featureEngineering.ts : feature matrix assembly
-- ---------------------------------------------------------------------------

/-- Feature column names from `featureEngineering.ts` lines 9-11. -/
inductive FeatureName where
  | deltaSharpe
  | deltaCvar
  | mom6
  | mom12
  | beta
  | divYield
  | logCap
  | targetReturn
deriving DecidableEq

/-- The frozen column order `FEATURE_ORDER`. -/
def FEATURE_ORDER : List FeatureName :=
  [FeatureName.deltaSharpe, FeatureName.deltaCvar, FeatureName.mom6,
   FeatureName.mom12, FeatureName.beta, FeatureName.divYield,
   FeatureName.logCap, FeatureName.targetReturn]

/-- Value record of the marginal map handed to `buildFeatureMatrix`
(`featureEngineering.ts` line 105). -/
structure MarginalEntry where
  deltaSharpe : ℚ
  deltaCvar : ℚ
deriving DecidableEq

/-- Value record of the fundamentals map handed to `buildFeatureMatrix`
(`featureEngineering.ts` lines 106-108). -/
structure FundEntry where
  momentum6m : ℚ
  momentum12m : ℚ
  beta : ℚ
  divYield : ℚ
  logCap : ℚ
deriving DecidableEq

/-- Embedding of `buildFeatureMatrix` (`featureEngineering.ts` lines
103-129).  The record lookups model `marginal[t] ?? {...defaults}` and
`fundamentals[t] ?? {...defaults}`; each row is emitted by mapping the
assembled record over `FEATURE_ORDER`, exactly as the source does. -/
def buildFeatureMatrix (candidates : List String)
    (marginal : String → Option MarginalEntry)
    (fundamentals : String → Option FundEntry)
    (targetReturn : ℚ) : List (List ℚ) :=
  candidates.map (fun t =>
    let m := (marginal t).getD ⟨0, 0⟩
    let f := (fundamentals t).getD ⟨0, 0, 0, 0, 0⟩
    FEATURE_ORDER.map (fun k =>
      match k with
      | FeatureName.deltaSharpe => m.deltaSharpe
      | FeatureName.deltaCvar => m.deltaCvar
      | FeatureName.mom6 => f.momentum6m
      | FeatureName.mom12 => f.momentum12m
      | FeatureName.beta => f.beta
      | FeatureName.divYield => f.divYield
      | FeatureName.logCap => f.logCap
      | FeatureName.targetReturn => targetReturn))

-- ---------------------------------------------------------------------------
-- DataHelper.ts : computeStats
-- ---------------------------------------------------------------------------

/-- One weekly fractional return from `computeStats` (`DataHelper.ts`
lines 143-149).  A price is `none` when `parseFloat` of the close is not
finite (missing bar or unparsable text); the result is `none` exactly
when the source pushes `NaN`: `!isFinite(p0) || !isFinite(p1) || p0 <= 0`.
Note the source does NOT test `p1 <= 0`. -/
def weeklyReturn (p0 p1 : Option ℚ) : Option ℚ :=
  match p0, p1 with
  | some a, some b => if a ≤ 0 then none else some ((b - a) / a)
  | _, _ => none

/-- The per-ticker returns loop of `computeStats` (`DataHelper.ts` lines
139-150): one `weeklyReturn` per consecutive aligned-date pair. -/
def weeklyReturns (prices : List (Option ℚ)) : List (Option ℚ) :=
  (prices.zip prices.tail).map (fun pq => weeklyReturn pq.1 pq.2)

/-- Minimum number of valid observations, `DataHelper.ts` line 126. -/
def minObs : ℕ := 30

/-- Keep decision for one ticker in `computeStats` (`DataHelper.ts`
lines 129-164), over its aligned-date close prices (last list entry =
last aligned date).  The source first drops the ticker when the last
close is not finite (`continue`, line 135), then computes returns, then
keeps the ticker only when at least `minObs` returns are valid; kept
tickers contribute their NaN→0 substituted return series and their last
close (the `latestPrices` entry, which the cleanup loop at lines 160-164
deletes again for tickers that fail the filter). -/
def processTicker (prices : List (Option ℚ)) : Option (List ℚ × ℚ) :=
  match prices.getLast? with
  | none => none
  | some none => none
  | some (some lastClose) =>
    let r := weeklyReturns prices
    if minObs ≤ r.countP (fun x => x.isSome) then
      some (r.map (fun x => x.getD 0), lastClose)
    else none

/-- Pairwise weekly covariance `covPair` from `computeStats`
(`DataHelper.ts` lines 178-186): `n` is the shorter length, the means
divide the FULL sums of each list by `n` (exactly as
`a.reduce(...)/n` does), and the cross sum runs over the first `n`
entries with an `n - 1` denominator. -/
def covPair (a b : List ℚ) : ℚ :=
  let n := min a.length b.length
  if n ≤ 1 then 0
  else
    let meanA := a.sum / (n : ℚ)
    let meanB := b.sum / (n : ℚ)
    (((List.range n).map
      (fun i => (a.getD i 0 - meanA) * (b.getD i 0 - meanB))).sum) / ((n : ℚ) - 1)

/-- Weekly covariance matrix from `computeStats` (`DataHelper.ts` lines
189-191): entry `(i, j)` is `covPair(returns[i], returns[j])`. -/
def covWeekly (returns : List (List ℚ)) : List (List ℚ) :=
  returns.map (fun ri => returns.map (fun rj => covPair ri rj))

/-- Annualised covariance matrix `covMat` from `computeStats`
(`DataHelper.ts` line 192): every weekly entry scaled by 52. -/
def covMat (returns : List (List ℚ)) : List (List ℚ) :=
  (covWeekly returns).map (fun row => row.map (fun v => v * 52))

/-- Follows the spec's words (section 4.1): the sample variance of a
series, `Σ (x - mean)² / (n - 1)`, guarded like `covPair` for
degenerate lengths.  Used only to compare `covMat`'s diagonal against
the spec's description. -/
def sampleVariance (a : List ℚ) : ℚ :=
  if a.length ≤ 1 then 0
  else (a.map (fun x => (x - a.sum / (a.length : ℚ)) ^ 2)).sum / ((a.length : ℚ) - 1)

-- ---------------------------------------------------------------------------
-- Ranking / sizing step of the recommend-trades route (src/unnamed/part_001)
-- ---------------------------------------------------------------------------

/-- Number of selections, `const k = Math.min(5, ranked.length)`
(`part_001` line 128). -/
def kSelections (rankedLen : ℕ) : ℕ := min 5 rankedLen

/-- Per-selection budget bucket,
`const perBucket = budget > 0 ? budget / k : 0` (`part_001` line 131). -/
def perBucket (budget : ℚ) (k : ℕ) : ℚ :=
  if 0 < budget then budget / (k : ℚ) else 0

/-- Suggested share count per recommendation (`part_001` lines 133-135):
`perBucket > 0 && px > 0 ? Math.max(1, Math.floor(perBucket / px)) : 0`. -/
def suggestedShares (perB px : ℚ) : ℤ :=
  if 0 < perB ∧ 0 < px then max 1 ⌊perB / px⌋ else 0

end PortfolioDash

-- ---------------------------------------------------------------------------
-- Helper lemmas about the embedded primitives
-- ---------------------------------------------------------------------------

namespace PortfolioDash

theorem dot_cons (a b : ℚ) (as bs : List ℚ) :
    dot (a :: as) (b :: bs) = a * b + dot as bs := by
  simp [dot]

theorem dot_replicate_zero (n : ℕ) (w : List ℚ) :
    dot (List.replicate n 0) w = 0 := by
  induction n generalizing w with
  | zero => simp [dot]
  | succ m ih =>
    cases w with
    | nil => simp [dot]
    | cons x xs => rw [List.replicate_succ, dot_cons, ih]; ring

theorem dot_replicate_one (w : List ℚ) :
    dot (List.replicate w.length 1) w = w.sum := by
  induction w with
  | nil => simp [dot]
  | cons x xs ih =>
    rw [List.length_cons, List.replicate_succ, dot_cons, ih, List.sum_cons]
    ring

theorem dot_set_one (n i : ℕ) (w : List ℚ) (hi : i < n) (hw : n ≤ w.length) :
    dot ((List.replicate n (0 : ℚ)).set i 1) w = w.getD i 0 := by
  induction w generalizing n i with
  | nil => simp at hw; omega
  | cons x xs ih =>
    cases n with
    | zero => omega
    | succ m =>
      rw [List.replicate_succ]
      cases i with
      | zero =>
        rw [List.set_cons_zero, dot_cons, dot_replicate_zero, List.getD_cons_zero]
        ring
      | succ j =>
        rw [List.set_cons_succ, dot_cons, List.getD_cons_succ,
          ih m j (by omega) (by simpa using hw)]
        ring

theorem dot_le_max (mu w : List ℚ) (M : ℚ) (hlen : mu.length = w.length)
    (hmu : ∀ x ∈ mu, x ≤ M) (hw : ∀ y ∈ w, 0 ≤ y) :
    dot mu w ≤ M * w.sum := by
  induction mu generalizing w with
  | nil =>
    cases w with
    | nil => simp [dot]
    | cons y ys => simp at hlen
  | cons a as ih =>
    cases w with
    | nil => simp at hlen
    | cons y ys =>
      rw [dot_cons, List.sum_cons, mul_add]
      have h1 : a * y ≤ M * y :=
        mul_le_mul_of_nonneg_right (hmu a (by simp)) (hw y (by simp))
      have h2 : dot as ys ≤ M * ys.sum :=
        ih ys (by simpa using hlen) (fun x hx => hmu x (by simp [hx]))
          (fun y hy => hw y (by simp [hy]))
      linarith

theorem sum_set (l : List ℚ) (i : ℕ) (v : ℚ) (h : i < l.length) :
    (l.set i v).sum = l.sum - l.getD i 0 + v := by
  induction l generalizing i with
  | nil => simp at h
  | cons x xs ih =>
    cases i with
    | zero => simp [List.set_cons_zero]; ring
    | succ j =>
      rw [List.set_cons_succ, List.sum_cons, List.sum_cons, List.getD_cons_succ,
        ih j (by simpa using h)]
      ring

theorem le_foldl_max_init (ys : List ℚ) (a : ℚ) : a ≤ ys.foldl max a := by
  induction ys generalizing a with
  | nil => simp
  | cons y t ih => exact le_trans (le_max_left a y) (ih (max a y))

theorem le_foldl_max_mem (ys : List ℚ) (a x : ℚ) (hx : x ∈ ys) :
    x ≤ ys.foldl max a := by
  induction ys generalizing a with
  | nil => simp at hx
  | cons y t ih =>
    rcases List.mem_cons.mp hx with h | h
    · subst h
      exact le_trans (le_max_right a x) (le_foldl_max_init t (max a x))
    · exact ih (max a y) h

theorem foldl_max_mem (ys : List ℚ) (a : ℚ) :
    ys.foldl max a = a ∨ ys.foldl max a ∈ ys := by
  induction ys generalizing a with
  | nil => left; rfl
  | cons y t ih =>
    rcases ih (max a y) with h | h
    · rcases max_choice a y with hm | hm
      · left; rw [List.foldl_cons, h, hm]
      · right; rw [List.foldl_cons, h, hm]; simp
    · right; simp [h]

theorem listMax_mem (l : List ℚ) (h : l ≠ []) : listMax l ∈ l := by
  cases l with
  | nil => exact absurd rfl h
  | cons y ys =>
    rcases foldl_max_mem ys y with h1 | h1
    · simp [listMax, h1]
    · simp [listMax]
      right
      exact h1

theorem le_listMax (l : List ℚ) (x : ℚ) (hx : x ∈ l) : x ≤ listMax l := by
  cases l with
  | nil => simp at hx
  | cons y ys =>
    rcases List.mem_cons.mp hx with h | h
    · subst h; exact le_foldl_max_init ys x
    · exact le_foldl_max_mem ys y x h

theorem donor_lt (w : List ℚ) (h : w ≠ []) :
    w.findIdx (fun x => x == listMax w) < w.length :=
  List.findIdx_lt_length_of_exists ⟨listMax w, listMax_mem w h, by simp⟩

theorem donor_getD (w : List ℚ) (h : w ≠ []) :
    w.getD (w.findIdx (fun x => x == listMax w)) 0 = listMax w := by
  have hlt := donor_lt w h
  have hp := List.findIdx_getElem (w := hlt)
  rw [List.getD_eq_getElem w 0 hlt]
  exact beq_iff_eq.mp (by simpa using hp)

theorem getD_map_lt {α β : Type} (f : α → β) (l : List α) (i : ℕ) (d : α) (e : β)
    (h : i < l.length) : (l.map f).getD i e = f (l.getD i d) := by
  induction l generalizing i with
  | nil => simp at h
  | cons x xs ih =>
    cases i with
    | zero => rfl
    | succ j =>
      rw [List.map_cons, List.getD_cons_succ, List.getD_cons_succ,
        ih j (by simpa using h)]

theorem zip_map_replicate {β : Type} (n : ℕ) (f : ℕ → β) (c : ℚ) :
    ((List.range n).map f).zip (List.replicate n c) =
      (List.range n).map (fun i => (f i, c)) := by
  induction n with
  | zero => rfl
  | succ m ih =>
    rw [List.range_succ, List.map_append, List.replicate_succ' m c,
      List.zip_append (by simp), ih, List.map_append]
    rfl

end PortfolioDash

namespace PortfolioDash

theorem mem_take_ones (mu : List ℚ) (t : ℚ) :
    (List.replicate mu.length (1 : ℚ), (1 : ℚ)) ∈ (qpConstraints mu t).take meq := by
  simp [qpConstraints, qpColumns, qpBvec, meq]

theorem mem_drop_mu (mu : List ℚ) (t : ℚ) :
    (mu, t) ∈ (qpConstraints mu t).drop meq := by
  simp [qpConstraints, qpColumns, qpBvec, meq]

theorem mem_drop_eye (mu : List ℚ) (t : ℚ) (i : ℕ) (hi : i < mu.length) :
    ((List.replicate mu.length (0 : ℚ)).set i 1, (0 : ℚ)) ∈
      (qpConstraints mu t).drop meq := by
  simp only [qpConstraints, qpColumns, qpBvec, meq, List.cons_append,
    List.nil_append, List.zip_cons_cons, List.drop_succ_cons, List.drop_zero]
  right
  rw [eyeCols, zip_map_replicate]
  exact List.mem_map.mpr ⟨i, List.mem_range.mpr hi, rfl⟩

theorem qpFeasible_sum (mu : List ℚ) (t : ℚ) (w : List ℚ)
    (h : qpFeasible mu t w) (hlen : w.length = mu.length) : w.sum = 1 := by
  have h1 := h.1 _ (mem_take_ones mu t)
  rw [← hlen, dot_replicate_one] at h1
  exact h1

theorem qpFeasible_target (mu : List ℚ) (t : ℚ) (w : List ℚ)
    (h : qpFeasible mu t w) : t ≤ dot mu w :=
  h.2 _ (mem_drop_mu mu t)

theorem qpFeasible_nonneg (mu : List ℚ) (t : ℚ) (w : List ℚ)
    (h : qpFeasible mu t w) (hlen : w.length = mu.length) :
    ∀ y ∈ w, 0 ≤ y := by
  intro y hy
  obtain ⟨i, hi, rfl⟩ := List.mem_iff_getElem.mp hy
  have h2 := h.2 _ (mem_drop_eye mu t i (hlen ▸ hi))
  rw [dot_set_one mu.length i w (hlen ▸ hi) (le_of_eq hlen.symm)] at h2
  rwa [List.getD_eq_getElem w 0 hi] at h2

/-- When the target return exceeds the largest expected return, no weight
vector satisfies the constraint system that `meanVarianceOptimization`
passes to the solver. -/
theorem qp_infeasible_above_max (mu : List ℚ) (t : ℚ) (w : List ℚ)
    (ht : listMax mu < t) (hlen : w.length = mu.length) :
    ¬ qpFeasible mu t w := by
  intro h
  have hs := qpFeasible_sum mu t w h hlen
  have hr := qpFeasible_target mu t w h
  have hn := qpFeasible_nonneg mu t w h hlen
  have hd : dot mu w ≤ listMax mu * w.sum :=
    dot_le_max mu w (listMax mu) hlen.symm (fun x hx => le_listMax mu x hx) hn
  rw [hs, mul_one] at hd
  linarith

theorem sumsq_range_getD (l : List ℚ) (m : ℚ) :
    ((List.range l.length).map (fun i => (l.getD i 0 - m) * (l.getD i 0 - m))).sum =
      (l.map (fun x => (x - m) ^ 2)).sum := by
  induction l with
  | nil => rfl
  | cons x xs ih =>
    rw [List.length_cons, List.range_succ_eq_map, List.map_cons, List.map_map,
      List.map_cons, List.sum_cons, List.sum_cons]
    have hcomp :
        ((List.range xs.length).map
          ((fun i => ((x :: xs).getD i 0 - m) * ((x :: xs).getD i 0 - m)) ∘ Nat.succ)) =
        (List.range xs.length).map (fun i => (xs.getD i 0 - m) * (xs.getD i 0 - m)) := by
      apply List.map_congr_left
      intro a _
      simp [Function.comp]
    rw [hcomp, ih]
    simp [List.getD_cons_zero]
    ring

theorem covPair_comm (a b : List ℚ) : covPair a b = covPair b a := by
  simp only [covPair, min_comm b.length a.length]
  split
  · rfl
  · congr 1
    apply congrArg List.sum
    apply List.map_congr_left
    intro i _
    ring

theorem covPair_self (a : List ℚ) : covPair a a = sampleVariance a := by
  simp only [covPair, sampleVariance, min_self]
  split
  · rfl
  · rw [sumsq_range_getD]

theorem covMat_entry (returns : List (List ℚ)) (i j : ℕ)
    (hi : i < returns.length) (hj : j < returns.length) :
    ((covMat returns).getD i []).getD j 0 =
      covPair (returns.getD i []) (returns.getD j []) * 52 := by
  have h1 : (covMat returns).getD i [] =
      List.map (fun v => v * 52)
        (List.map (fun rj => covPair (returns.getD i []) rj) returns) := by
    rw [covMat, getD_map_lt (fun row => List.map (fun v => v * 52) row)
      (covWeekly returns) i [] [] (by simp [covWeekly, hi])]
    rw [covWeekly, getD_map_lt (fun ri => List.map (fun rj => covPair ri rj) returns)
      returns i [] [] hi]
  rw [h1, getD_map_lt (fun v => v * 52)
    (List.map (fun rj => covPair (returns.getD i []) rj) returns) j 0 0 (by simp [hj])]
  rw [getD_map_lt (fun rj => covPair (returns.getD i []) rj) returns j [] 0 hj]

theorem marginalLoop_tickers (wStar mu : List ℚ) (cov : List (List ℚ))
    (held : List ℕ) (bs bc : ℚ) (ts : List String) (i : ℕ) :
    (marginalLoop wStar mu cov held bs bc i ts).map MarginalMetrics.ticker =
      ((ts.enumFrom i).filter (fun p => !(decide (p.1 ∈ held)))).map Prod.snd := by
  induction ts generalizing i with
  | nil => rfl
  | cons a rest ih =>
    by_cases h : i ∈ held <;>
      simp [marginalLoop, List.enumFrom_cons, List.filter_cons, h, ih]

end PortfolioDash

-- ---------------------------------------------------------------------------
-- Claim theorems
-- ---------------------------------------------------------------------------

namespace PortfolioDash

unseal Rat.add Rat.mul Rat.inv Rat.sub in
/-- C1: the claim states that the weight vector returned by
`meanVarianceOptimization` satisfies `mu·w = targetReturn` as an exact
equality.  The code instead passes the return constraint as the one-sided
inequality `mu·w ≥ targetReturn` (`meq = 1` covers only the budget
equality), contradicting the function's own doc comment `μᵀw =
targetReturn`.  Concretely, for `mu = [1/10, 1/5]`, `sigma = I₂` and the
feasible target `1/10`: any vector feasible for the system the code
builds has objective at least that of `[1/2, 1/2]`, which is itself
feasible, so the solver's optimum is `[1/2, 1/2]` with `mu·w = 3/20 ≠
1/10`, while the equality-formulation solution `[1, 0]` attains the
target exactly and is feasible. -/
theorem C1_return_constraint_is_inequality (w1 w2 : ℚ)
    (h : qpFeasible [1/10, 1/5] (1/10) [w1, w2]) :
    qpFeasible [1/10, 1/5] (1/10) [1/2, 1/2] ∧
    qpObjective [[1, 0], [0, 1]] [1/2, 1/2] ≤ qpObjective [[1, 0], [0, 1]] [w1, w2] ∧
    dot [1/10, 1/5] [1/2, 1/2] ≠ 1/10 ∧
    dot [1/10, 1/5] [1, 0] = 1/10 ∧
    qpFeasible [1/10, 1/5] (1/10) [1, 0] := by
  have hsum : w1 + w2 = 1 := by
    have h1 := h.1 (([1, 1], 1) : List ℚ × ℚ) (by decide)
    simp [dot] at h1
    linarith
  refine ⟨by decide, ?_, by decide, by decide, by decide⟩
  have hobj : qpObjective [[1, 0], [0, 1]] [w1, w2] = w1 ^ 2 + w2 ^ 2 := by
    simp [qpObjective, Dmat, matVec, dot]
    ring
  have hobj2 : qpObjective [[1, 0], [0, 1]] [(1 : ℚ)/2, 1/2] = 1/2 := by
    norm_num [qpObjective, Dmat, matVec, dot]
  rw [hobj, hobj2]
  nlinarith [sq_nonneg (w1 - w2)]

unseal Rat.add Rat.mul Rat.inv Rat.sub in
/-- Witness for C1 at the concrete feasible point `[1, 0]`. -/
theorem C1_return_constraint_is_inequality_witness :
    qpFeasible [1/10, 1/5] (1/10) [1, 0] ∧
    (qpFeasible [1/10, 1/5] (1/10) [1/2, 1/2] ∧
     qpObjective [[1, 0], [0, 1]] [1/2, 1/2] ≤ qpObjective [[1, 0], [0, 1]] [1, 0] ∧
     dot [1/10, 1/5] [1/2, 1/2] ≠ 1/10 ∧
     dot [1/10, 1/5] [1, 0] = 1/10 ∧
     qpFeasible [1/10, 1/5] (1/10) [1, 0]) :=
  ⟨by decide, C1_return_constraint_is_inequality 1 0 (by decide)⟩

unseal Rat.add Rat.mul Rat.inv Rat.sub in
/-- C2 counterexample: with `mu = [1/10, 1/5]` and a target `3/10` above
`max(mu) = 1/5`, `meanVarianceOptimization` still returns the solver's
solution array (here the garbage vector `[0, 0]`) even though the solver
reported the constraints inconsistent; no `InfeasibleTarget` failure is
possible because the function has no error path at all. -/
theorem C2_counterexample :
    listMax [1/10, 1/5] < 3/10 ∧
    meanVarianceOptimization (fun _ _ _ _ _ => infeasibleReport)
      [1/10, 1/5] [[1, 0], [0, 1]] (3/10) = [0, 0] ∧
    infeasibleReport.message = "constraints are inconsistent, no solution!" :=
  ⟨by decide, rfl, rfl⟩

/-- C2 (amended): when `targetReturn` exceeds `max(mu)` the constraint
system the optimizer builds is infeasible - no vector of the right
length satisfies it - yet `meanVarianceOptimization` performs no
feasibility check and returns the solver's `solution` field
unconditionally, for every solver outcome. -/
theorem C2_no_error_path
    (solve : List (List ℚ) → List ℚ → List (List ℚ) → List ℚ → ℕ → QPResult)
    (mu : List ℚ) (sigma : List (List ℚ)) (t : ℚ) (w : List ℚ)
    (ht : listMax mu < t) (hlen : w.length = mu.length) :
    ¬ qpFeasible mu t w ∧
    meanVarianceOptimization solve mu sigma t =
      (solve (Dmat sigma) (List.replicate mu.length 0) ((qpColumns mu).transpose)
        (qpBvec mu t) meq).solution :=
  ⟨qp_infeasible_above_max mu t w ht hlen, rfl⟩

unseal Rat.add Rat.mul Rat.inv Rat.sub in
/-- Witness for C2 at the concrete infeasible instance. -/
theorem C2_no_error_path_witness :
    listMax [1/10, 1/5] < 3/10 ∧
    ([1/2, 1/2] : List ℚ).length = ([1/10, 1/5] : List ℚ).length ∧
    ¬ qpFeasible [1/10, 1/5] (3/10) [1/2, 1/2] ∧
    meanVarianceOptimization (fun _ _ _ _ _ => infeasibleReport)
      [1/10, 1/5] [[1, 0], [0, 1]] (3/10) = [0, 0] := by
  have h := C2_no_error_path (fun _ _ _ _ _ => infeasibleReport)
    [1/10, 1/5] [[1, 0], [0, 1]] (3/10) [1/2, 1/2] (by decide) rfl
  exact ⟨by decide, rfl, h.1, h.2⟩

unseal Rat.add Rat.mul Rat.inv Rat.sub in
/-- C3 counterexample: a budget of 5 split over 5 buckets gives a bucket
of 1, below the price 10, so the claim predicts 0 suggested shares; the
code's `Math.max(1, Math.floor(perBucket / px))` yields 1 share. -/
theorem C3_counterexample :
    kSelections 5 = 5 ∧ perBucket 5 (kSelections 5) = 1 ∧
    perBucket 5 (kSelections 5) < 10 ∧
    suggestedShares (perBucket 5 (kSelections 5)) 10 = 1 := by decide

/-- C3 (amended): for a positive bucket and positive price the suggested
share count is `max(1, floor(bucket / price))`: it equals
`floor(bucket / price)` when the bucket affords at least one share, and
it is still 1 - not 0 - when the bucket cannot afford one share. -/
theorem C3_min_one_share (b px : ℚ) (hb : 0 < b) (hpx : 0 < px) :
    suggestedShares b px = max 1 ⌊b / px⌋ ∧
    (b < px → suggestedShares b px = 1) ∧
    (px ≤ b → suggestedShares b px = ⌊b / px⌋) := by
  have hdef : suggestedShares b px = max 1 ⌊b / px⌋ := if_pos ⟨hb, hpx⟩
  refine ⟨hdef, ?_, ?_⟩
  · intro hlt
    have h0 : ⌊b / px⌋ = 0 := by
      rw [Int.floor_eq_zero_iff]
      simp only [Set.mem_Ico]
      exact ⟨div_nonneg hb.le hpx.le, (div_lt_one hpx).mpr hlt⟩
    rw [hdef, h0]
    norm_num
  · intro hle
    have h1 : (1 : ℤ) ≤ ⌊b / px⌋ := by
      rw [Int.le_floor]
      push_cast
      rw [le_div_iff₀ hpx]
      linarith
    rw [hdef, max_eq_right h1]

/-- Witness for C3 at bucket 1 and price 10. -/
theorem C3_min_one_share_witness :
    (0 : ℚ) < 1 ∧ (0 : ℚ) < 10 ∧ (1 : ℚ) < 10 ∧ suggestedShares 1 10 = 1 :=
  ⟨by norm_num, by norm_num, by norm_num,
    (C3_min_one_share 1 10 (by norm_num) (by norm_num)).2.1 (by norm_num)⟩

end PortfolioDash

namespace PortfolioDash

unseal Rat.add Rat.mul Rat.inv Rat.sub in
/-- C4 counterexample: the baseline `[1, 0]` with `cov = [[0,0],[0,1]]`
has `wᵀΣw = 0` exactly, yet `computeMarginalUtilities` returns a metrics
entry for the non-held candidate "B" (computing Sharpe with a zero
standard deviation) instead of failing with any `DegenerateBaseline`
error - the function has no error path. -/
theorem C4_counterexample :
    portfolioVariance [1, 0] [[0, 0], [0, 1]] = 0 ∧
    (computeMarginalUtilities [1, 0] [5/100, 1/10] [[0, 0], [0, 1]]
      ["A", "B"] [0]).map MarginalMetrics.ticker = ["B"] :=
  ⟨by decide, by decide⟩

/-- C4 (amended): `computeMarginalUtilities` performs no degeneracy
check: even when the baseline variance `wᵀΣw` is exactly 0 it evaluates
the Sharpe ratio (dividing by the zero standard deviation, which is
`Infinity`/`NaN` in JavaScript) and returns one metrics entry per
non-held candidate instead of failing with `DegenerateBaseline`. -/
theorem C4_no_degeneracy_check (wStar mu : List ℚ) (cov : List (List ℚ))
    (tickers : List String) (held : List ℕ)
    (hdeg : portfolioVariance wStar cov = 0) :
    (computeMarginalUtilities wStar mu cov tickers held).length =
      ((tickers.enum).filter (fun p => !(decide (p.1 ∈ held)))).length := by
  have h := marginalLoop_tickers wStar mu cov held (sharpe wStar mu cov)
    (cvarNorm wStar mu cov) tickers 0
  have h2 := congrArg List.length h
  simpa [computeMarginalUtilities, List.enum] using h2

unseal Rat.add Rat.mul Rat.inv Rat.sub in
/-- Witness for C4 at the degenerate baseline. -/
theorem C4_no_degeneracy_check_witness :
    portfolioVariance [1, 0] [[0, 0], [0, 1]] = 0 ∧
    (computeMarginalUtilities [1, 0] [5/100, 1/10] [[0, 0], [0, 1]]
      ["A", "B"] [0]).length = 1 := by
  have h := C4_no_degeneracy_check [1, 0] [5/100, 1/10] [[0, 0], [0, 1]]
    ["A", "B"] [0] (by decide)
  exact ⟨by decide, h.trans (by decide)⟩

unseal Rat.add Rat.mul Rat.inv Rat.sub in
/-- C5 counterexample: for the aligned price pair `(10, -5)` - second
endpoint finite but non-positive - the claim predicts an undefined
return (recorded as 0, counted invalid), but the code only tests
`p0 <= 0`, so it records the defined return `(-5 - 10)/10 = -3/2` and
counts it as valid. -/
theorem C5_counterexample :
    weeklyReturns [some 10, some (-5)] = [some (-(3/2))] ∧
    (weeklyReturns [some 10, some (-5)]).countP (fun x => x.isSome) = 1 :=
  ⟨by decide, by decide⟩

/-- C5 (amended): a weekly return is undefined (NaN) iff the first
endpoint is missing/non-finite, the second endpoint is
missing/non-finite, or the FIRST endpoint is non-positive; a finite
non-positive second endpoint with a positive first endpoint yields the
defined return `(p1 - p0) / p0`. -/
theorem C5_undefined_iff (p0 p1 : Option ℚ) :
    (weeklyReturn p0 p1 = none ↔
      p0 = none ∨ p1 = none ∨ ∃ a, p0 = some a ∧ a ≤ 0) ∧
    (∀ a b : ℚ, 0 < a → weeklyReturn (some a) (some b) = some ((b - a) / a)) := by
  constructor
  · cases p0 with
    | none => simp [weeklyReturn]
    | some a =>
      cases p1 with
      | none => simp [weeklyReturn]
      | some b =>
        simp only [weeklyReturn]
        split_ifs with h
        · simp [h]
        · simp [h]
  · intro a b ha
    simp only [weeklyReturn]
    rw [if_neg (not_le.mpr ha)]

/-- Witness for C5 at the pair `(10, -5)`. -/
theorem C5_undefined_iff_witness :
    (0 : ℚ) < 10 ∧ weeklyReturn (some 10) (some (-5)) = some (((-5) - 10) / 10) :=
  ⟨by norm_num, (C5_undefined_iff (some 10) (some (-5))).2 10 (-5) (by norm_num)⟩

/-- C6: `buildFeatureMatrix` returns one row per candidate; row `i` has
length exactly 8 and is the fixed-order list `[deltaSharpe, deltaCvar,
mom6, mom12, beta, divYield, logCap, targetReturn]` built from the
candidate's map entries, with a whole-record zero default when the
candidate is missing from a map; a candidate missing from both maps gets
exactly `[0, 0, 0, 0, 0, 0, 0, targetReturn]` - never NaN, never a
thrown error (the embedding is a total function). -/
theorem C6_feature_rows (candidates : List String)
    (marginal : String → Option MarginalEntry)
    (fundamentals : String → Option FundEntry) (tr : ℚ) (i : ℕ)
    (hi : i < candidates.length) :
    (buildFeatureMatrix candidates marginal fundamentals tr).length = candidates.length ∧
    ((buildFeatureMatrix candidates marginal fundamentals tr).getD i []).length = 8 ∧
    (buildFeatureMatrix candidates marginal fundamentals tr).getD i [] =
      [((marginal (candidates.getD i "")).getD ⟨0, 0⟩).deltaSharpe,
       ((marginal (candidates.getD i "")).getD ⟨0, 0⟩).deltaCvar,
       ((fundamentals (candidates.getD i "")).getD ⟨0, 0, 0, 0, 0⟩).momentum6m,
       ((fundamentals (candidates.getD i "")).getD ⟨0, 0, 0, 0, 0⟩).momentum12m,
       ((fundamentals (candidates.getD i "")).getD ⟨0, 0, 0, 0, 0⟩).beta,
       ((fundamentals (candidates.getD i "")).getD ⟨0, 0, 0, 0, 0⟩).divYield,
       ((fundamentals (candidates.getD i "")).getD ⟨0, 0, 0, 0, 0⟩).logCap,
       tr] ∧
    (marginal (candidates.getD i "") = none →
     fundamentals (candidates.getD i "") = none →
      (buildFeatureMatrix candidates marginal fundamentals tr).getD i [] =
        [0, 0, 0, 0, 0, 0, 0, tr]) := by
  have key : (buildFeatureMatrix candidates marginal fundamentals tr).getD i [] =
      [((marginal (candidates.getD i "")).getD ⟨0, 0⟩).deltaSharpe,
       ((marginal (candidates.getD i "")).getD ⟨0, 0⟩).deltaCvar,
       ((fundamentals (candidates.getD i "")).getD ⟨0, 0, 0, 0, 0⟩).momentum6m,
       ((fundamentals (candidates.getD i "")).getD ⟨0, 0, 0, 0, 0⟩).momentum12m,
       ((fundamentals (candidates.getD i "")).getD ⟨0, 0, 0, 0, 0⟩).beta,
       ((fundamentals (candidates.getD i "")).getD ⟨0, 0, 0, 0, 0⟩).divYield,
       ((fundamentals (candidates.getD i "")).getD ⟨0, 0, 0, 0, 0⟩).logCap,
       tr] := by
    rw [buildFeatureMatrix, getD_map_lt _ candidates i "" [] hi]
    rfl
  refine ⟨by simp [buildFeatureMatrix], by rw [key]; rfl, key, ?_⟩
  intro hm hf
  rw [key, hm, hf]
  rfl

/-- Witness for C6 at a candidate missing from both maps. -/
theorem C6_feature_rows_witness :
    (0 : ℕ) < (["A"] : List String).length ∧
    (buildFeatureMatrix ["A"] (fun _ => none) (fun _ => none) 3).getD 0 [] =
      [0, 0, 0, 0, 0, 0, 0, 3] := by
  have h := C6_feature_rows ["A"] (fun _ => none) (fun _ => none) 3 0 (by decide)
  exact ⟨by decide, h.2.2.2 rfl rfl⟩

unseal Rat.add Rat.mul Rat.inv Rat.sub in
/-- C7 counterexample: for the baseline `[1/200, 1/500]` the largest
weight `1/200` is below `eps = 1/100`; the donor update
`Math.max(0, w - eps)` clamps at 0, so only `1/200` is removed while
`eps` is still added at the candidate, and the perturbed sum `3/250`
differs from the baseline sum `7/1000` - the claim's "exactly epsilon
removed, sum preserved, for every baseline" fails. -/
theorem C7_counterexample :
    listMax [1/200, 1/500] < eps ∧
    perturb [1/200, 1/500] 1 = [0, 3/250] ∧
    (perturb [1/200, 1/500] 1).sum ≠ ([1/200, 1/500] : List ℚ).sum :=
  ⟨by decide, by decide, by decide⟩

/-- C7 (amended): the perturbation adds exactly `eps` at the candidate
index but reduces the donor (the first largest-weight index) to
`max(0, w - eps)`: when the largest weight is at least `eps` the
perturbed vector sums to the baseline sum, and when the largest weight
is below `eps` the perturbed sum exceeds the baseline sum by exactly
`eps - max(w)`. -/
theorem C7_perturb_sum (wStar : List ℚ) (i : ℕ) (hne : wStar ≠ [])
    (hi : i < wStar.length) :
    (eps ≤ listMax wStar → (perturb wStar i).sum = wStar.sum) ∧
    (listMax wStar < eps →
      (perturb wStar i).sum = wStar.sum + (eps - listMax wStar)) := by
  have hd := donor_lt wStar hne
  have hv := donor_getD wStar hne
  set d := wStar.findIdx (fun x => x == listMax wStar) with hdef
  have hsum1 : (wStar.set d (max 0 (wStar.getD d 0 - eps))).sum
      = wStar.sum - listMax wStar + max 0 (listMax wStar - eps) := by
    rw [sum_set wStar d _ hd, hv]
  have hlen1 : (wStar.set d (max 0 (wStar.getD d 0 - eps))).length = wStar.length := by
    simp
  have hsum2 : (perturb wStar i).sum
      = (wStar.set d (max 0 (wStar.getD d 0 - eps))).sum + eps := by
    show ((wStar.set d (max 0 (wStar.getD d 0 - eps))).set i
      ((wStar.set d (max 0 (wStar.getD d 0 - eps))).getD i 0 + eps)).sum = _
    rw [sum_set _ i _ (by rw [hlen1]; exact hi)]
    ring
  constructor
  · intro hle
    rw [hsum2, hsum1, max_eq_right (by linarith : (0 : ℚ) ≤ listMax wStar - eps)]
    ring
  · intro hlt
    rw [hsum2, hsum1, max_eq_left (by linarith : listMax wStar - eps ≤ (0 : ℚ))]
    ring

unseal Rat.add Rat.mul Rat.inv Rat.sub in
/-- Witness for C7 at a baseline whose largest weight exceeds `eps`. -/
theorem C7_perturb_sum_witness :
    ([7/10, 3/10] : List ℚ) ≠ [] ∧ 1 < ([7/10, 3/10] : List ℚ).length ∧
    eps ≤ listMax [7/10, 3/10] ∧
    (perturb [7/10, 3/10] 1).sum = ([7/10, 3/10] : List ℚ).sum := by
  have h := C7_perturb_sum [7/10, 3/10] 1 (by decide) (by decide)
  exact ⟨by decide, by decide, by decide, h.1 (by decide)⟩

/-- C8: for a baseline with positive variance, the tickers in the output
of `computeMarginalUtilities` are exactly the tickers at non-held
indices, in their original order: no held index ever contributes an
entry. -/
theorem C8_held_excluded (wStar mu : List ℚ) (cov : List (List ℚ))
    (tickers : List String) (held : List ℕ)
    (hpos : 0 < portfolioVariance wStar cov) :
    (computeMarginalUtilities wStar mu cov tickers held).map MarginalMetrics.ticker =
      ((tickers.enum).filter (fun p => !(decide (p.1 ∈ held)))).map Prod.snd := by
  have h := marginalLoop_tickers wStar mu cov held (sharpe wStar mu cov)
    (cvarNorm wStar mu cov) tickers 0
  simpa [computeMarginalUtilities, List.enum] using h

unseal Rat.add Rat.mul Rat.inv Rat.sub in
/-- Witness for C8 on a three-asset universe with index 1 held. -/
theorem C8_held_excluded_witness :
    0 < portfolioVariance [1/2, 1/2, 0] [[1, 0, 0], [0, 1, 0], [0, 0, 1]] ∧
    (computeMarginalUtilities [1/2, 1/2, 0] [1/10, 1/10, 1/10]
      [[1, 0, 0], [0, 1, 0], [0, 0, 1]] ["A", "B", "C"] [1]).map
        MarginalMetrics.ticker = ["A", "C"] := by
  have h := C8_held_excluded [1/2, 1/2, 0] [1/10, 1/10, 1/10]
    [[1, 0, 0], [0, 1, 0], [0, 0, 1]] ["A", "B", "C"] [1] (by decide)
  exact ⟨by decide, h.trans (by decide)⟩

/-- C9: the covariance matrix produced by `computeStats` is symmetric,
and each diagonal entry equals 52 times the sample variance of that
instrument's (NaN-substituted) weekly return series - the annualized
sample variance. -/
theorem C9_cov_symmetric (returns : List (List ℚ)) (i j : ℕ)
    (hi : i < returns.length) (hj : j < returns.length) :
    ((covMat returns).getD i []).getD j 0 = ((covMat returns).getD j []).getD i 0 ∧
    ((covMat returns).getD i []).getD i 0 = 52 * sampleVariance (returns.getD i []) := by
  constructor
  · rw [covMat_entry returns i j hi hj, covMat_entry returns j i hj hi, covPair_comm]
  · rw [covMat_entry returns i i hi hi, covPair_self]
    ring

unseal Rat.add Rat.mul Rat.inv Rat.sub in
/-- Witness for C9 on a concrete 2-instrument return matrix. -/
theorem C9_cov_symmetric_witness :
    0 < ([[1/10, 2/10, 3/10], [2/10, 1/10, 0]] : List (List ℚ)).length ∧
    1 < ([[1/10, 2/10, 3/10], [2/10, 1/10, 0]] : List (List ℚ)).length ∧
    (((covMat [[1/10, 2/10, 3/10], [2/10, 1/10, 0]]).getD 0 []).getD 1 0 =
      ((covMat [[1/10, 2/10, 3/10], [2/10, 1/10, 0]]).getD 1 []).getD 0 0 ∧
     ((covMat [[1/10, 2/10, 3/10], [2/10, 1/10, 0]]).getD 0 []).getD 0 0 =
      52 * sampleVariance (([[1/10, 2/10, 3/10], [2/10, 1/10, 0]] :
        List (List ℚ)).getD 0 [])) :=
  ⟨by decide, by decide, C9_cov_symmetric _ 0 1 (by decide) (by decide)⟩

/-- C10: in `computeStats`, a ticker whose close price on the last
aligned date does not parse to a finite number is dropped (no entry in
the kept universe, no return series, no `latestPrices` entry) even when
its return series has at least `minObs = 30` valid weekly returns: a
finite latest price is a keep-condition in addition to the sufficiency
filter. -/
theorem C10_nonfinite_last_price_drops (prices : List (Option ℚ))
    (hlast : prices.getLast? = some none)
    (h30 : minObs ≤ (weeklyReturns prices).countP (fun x => x.isSome)) :
    processTicker prices = none := by
  rw [processTicker, hlast]

unseal Rat.add Rat.mul Rat.inv Rat.sub in
/-- Witness for C10: 32 aligned dates, 30 valid returns, last close
non-finite. -/
theorem C10_nonfinite_last_price_drops_witness :
    (List.replicate 31 (some (1 : ℚ)) ++ [none]).getLast? = some none ∧
    minObs ≤ (weeklyReturns (List.replicate 31 (some (1 : ℚ)) ++ [none])).countP
      (fun x => x.isSome) ∧
    processTicker (List.replicate 31 (some (1 : ℚ)) ++ [none]) = none :=
  ⟨by decide, by decide,
    C10_nonfinite_last_price_drops _ (by decide) (by decide)⟩

end PortfolioDash
